import Mathlib

/-!
Verification development for the `contxt` web-scraper repository, centred on
its HTML → structured-text conversion code.

The Python sources are embedded shallowly:

* `src/contxt/formatters/markdown_formatter.py`
  (`MarkdownFormatter._html_to_markdown`, `_process_element_iteratively`)
* `src/contxt/formatters/xml_formatter.py`
  (`_sanitize_tag_name`, `_sanitize_attr_name`)
* `src/contxt/formatters/html_formatter.py` (`HTMLFormatter._format_node`)
* `src/contxt/sources/web/extractor.py`
  (`parse_with_fallback`, `process_markdown_format`, `process_tagged_format`,
  `convert_to_markdown`)
* `src/contxt/scraper.py` (`Scraper._deduplicate_list_items`)

A parsed BeautifulSoup tree is modelled by the inductive type `Node`; Python
strings are modelled as `String` / `List Char`; Python string methods
(`strip`, `split`, `join`, the two `re.sub` post-processing passes) are given
explicit executable definitions matching their documented behaviour on the
character classes they are used with.
-/

/-! ### Python string primitives -/

/-- Python `str` whitespace (the characters stripped by `str.strip()` and
matched by the regex class `\s` for ASCII input). -/
def pySpace (c : Char) : Bool :=
  c = ' ' || c = '\t' || c = '\n' || c = '\r' || c = '\x0b' || c = '\x0c'

/-- Python `s.strip()` on a character list. -/
def pyStrip (s : List Char) : List Char :=
  ((s.dropWhile pySpace).reverse.dropWhile pySpace).reverse

/-- Test whether `pat` is an initial segment of `s`. -/
def startsWithL : List Char → List Char → Bool
  | [], _ => true
  | _ :: _, [] => false
  | p :: ps, c :: cs => p == c && startsWithL ps cs

/-- Number of positions at which `pat` occurs in `s` (for the patterns used
here — which cannot overlap themselves — this agrees with Python
`s.count(pat)`). -/
def occCount (pat : List Char) : List Char → Nat
  | [] => 0
  | c :: rest => (if startsWithL pat (c :: rest) then 1 else 0) + occCount pat rest

/-- Python `"\n".join(fragments)`. -/
def joinNL : List (List Char) → List Char
  | [] => []
  | [x] => x
  | x :: y :: rest => x ++ '\n' :: joinNL (y :: rest)

/-- Python `sep.join(parts)` for an arbitrary separator. -/
def joinSep (sep : List Char) : List (List Char) → List Char
  | [] => []
  | [x] => x
  | x :: y :: rest => x ++ sep ++ joinSep sep (y :: rest)

/-- Python `s.split('\n')` (keeps empty pieces, as `str.split` with an
explicit separator does). -/
def splitNl : List Char → List (List Char)
  | [] => [[]]
  | c :: rest =>
    if c = '\n' then [] :: splitNl rest
    else
      match splitNl rest with
      | [] => [[c]]
      | l :: ls => (c :: l) :: ls

theorem length_dropWhile_le {α : Type} (p : α → Bool) (l : List α) :
    (l.dropWhile p).length ≤ l.length := by
  induction l with
  | nil => simp
  | cons c cs ih =>
    by_cases h : p c <;> simp [List.dropWhile, h] <;> omega

/-- Python `s.split()` — split on whitespace runs, dropping empty pieces
(BeautifulSoup uses this to turn a `class` attribute into a class list).
A non-space character either opens a new word (when followed by a space or
the end) or extends the word the remainder opens with. -/
def splitWs : List Char → List (List Char)
  | [] => []
  | c :: rest =>
    if pySpace c then splitWs rest
    else
      match splitWs rest, rest with
      | w :: ws, r :: _ =>
        if pySpace r then [c] :: w :: ws else (c :: w) :: ws
      | _, _ => [[c]]

/-- Python `re.sub(r'\s+', ' ', s)` — replace every maximal whitespace run
with a single space (a whitespace character is dropped when another
whitespace character follows, and becomes `' '` when it closes its run). -/
def collapseWs : List Char → List Char
  | [] => []
  | c :: rest =>
    if pySpace c then
      match rest with
      | r :: _ => if pySpace r then collapseWs rest else ' ' :: collapseWs rest
      | [] => [' ']
    else c :: collapseWs rest

/-- The backquote character (U+0060). -/
def backquote : Char := Char.ofNat 96

/-! ### The DOM model

A parsed HTML tree as handed over by BeautifulSoup: element nodes carry a tag
name, an attribute list and a child list; text nodes carry a string.
Attribute values are stored as raw strings; the multi-valued `class`
attribute is stored space-separated and split on access, matching
BeautifulSoup's behaviour. -/

inductive Node where
  | text (s : String)
  | elem (name : String) (attrs : List (String × String)) (children : List Node)
deriving Repr, Inhabited

def Node.name? : Node → Option String
  | .text _ => none
  | .elem nm _ _ => some nm

def Node.attrsOf : Node → List (String × String)
  | .text _ => []
  | .elem _ a _ => a

def Node.childrenOf : Node → List Node
  | .text _ => []
  | .elem _ _ cs => cs

/-- Python `tag.get(key)` / `tag[key]`: first binding of the attribute. -/
def getAttr (attrs : List (String × String)) (k : String) : Option String :=
  (attrs.find? (fun p => p.1 == k)).map Prod.snd

/-- Python `tag.get(key, default)`. -/
def getAttrD (attrs : List (String × String)) (k d : String) : String :=
  (getAttr attrs k).getD d

mutual
/-- The `.string` values of all text descendants, in document order
(BeautifulSoup `tag.strings`). -/
def Node.strings : Node → List (List Char)
  | .text s => [s.toList]
  | .elem _ _ cs => Node.stringsList cs
def Node.stringsList : List Node → List (List Char)
  | [] => []
  | c :: cs => Node.strings c ++ Node.stringsList cs
end

/-- BeautifulSoup `tag.get_text()`: concatenation of all text descendants. -/
def Node.getText (n : Node) : List Char := (Node.strings n).flatten

/-- BeautifulSoup `tag.get_text(strip=True)`: each text descendant stripped,
empty pieces dropped, the rest concatenated. -/
def Node.getTextStrip (n : Node) : List Char :=
  (((Node.strings n).map pyStrip).filter (fun p => p ≠ [])).flatten

mutual
/-- All descendants of a node in document (pre-)order, excluding the node
itself — the sequence BeautifulSoup's `find_all` filters. -/
def descendants : Node → List Node
  | .text _ => []
  | .elem _ _ cs => descendantsList cs
def descendantsList : List Node → List Node
  | [] => []
  | c :: cs => c :: descendants c ++ descendantsList cs
end

/-- BeautifulSoup `el.find_all(tag)` (recursive). -/
def findAllTag (t : String) (el : Node) : List Node :=
  (descendants el).filter (fun d => d.name? = some t)

/-- BeautifulSoup `el.find(tag)` (first match in document order). -/
def findFirstTag (t : String) (el : Node) : Option Node :=
  (findAllTag t el).head?

/-- BeautifulSoup `row.find_all(['th', 'td'])` / `['td', 'th']` — document
order is kept regardless of the order of the requested names. -/
def rowCells (row : Node) : List Node :=
  (descendants row).filter (fun d => d.name? = some "th" || d.name? = some "td")

/-! ### Markdown formatter: per-element rendering
(`markdown_formatter.py`, the `elif` chain of `_process_element_iteratively`)
-/

def headingNames : List String := ["h1", "h2", "h3", "h4", "h5", "h6"]

/-- Python `int(element.name[1])` for `h1` … `h6`. -/
def headingLevel (name : String) : Nat :=
  match name.toList with
  | _ :: c :: _ => c.toNat - 48
  | _ => 0

/-- Markdown heading branch: `f"\n{'#' * level} {text}\n"`. -/
def renderHeading (name : String) (el : Node) : List Char :=
  '\n' :: List.replicate (headingLevel name) '#' ++ ' ' :: Node.getTextStrip el ++ ['\n']

/-- Markdown anchor branch: `href = element.get('href', '')`,
`text = element.get_text(strip=True) or href`, emit `f"[{text}]({href})"`. -/
def renderA (el : Node) : List Char :=
  let href := getAttrD el.attrsOf "href" ""
  let t := Node.getTextStrip el
  let text := if t = [] then href.toList else t
  '[' :: text ++ ']' :: '(' :: href.toList ++ [')']

/-- Markdown image branch: emit `f"![{alt}]({src})"` only when `src` is
non-empty; a missing or empty `alt` becomes the literal `"Image"`. -/
def renderImg (attrs : List (String × String)) : List (List Char) :=
  let src := getAttrD attrs "src" ""
  let alt0 := getAttrD attrs "alt" ""
  let alt := if alt0 = "" then "Image" else alt0
  if src = "" then []
  else ['!' :: '[' :: alt.toList ++ ']' :: '(' :: src.toList ++ [')']]

/-- Markdown inline-code branch: double backquotes when the raw text itself
contains a backquote, single otherwise. -/
def renderCode (el : Node) : List Char :=
  let code := Node.getText el
  if backquote ∈ code then
    backquote :: backquote :: code ++ [backquote, backquote]
  else
    backquote :: code ++ [backquote]

/-- First `language-*` class of a tag, with the 9-character marker removed
(`cls[9:]`), if the tag has a `class` attribute with such a class. -/
def languageOf (attrs : List (String × String)) : Option (List Char) :=
  match getAttr attrs "class" with
  | none => none
  | some cls =>
    ((splitWs cls.toList).find? (fun c => startsWithL "language-".toList c)).map
      (List.drop 9)

/-- Markdown code-block branch for `<pre>`: text taken from a nested
`<code>` when present, language from the `language-*` classes — the Python
loop checks the outer element first, then the `<code>` element, the later
assignment overwriting the earlier one. -/
def renderPre (el : Node) : List Char :=
  let codeEl := findFirstTag "code" el
  let code := match codeEl with
    | some ce => Node.getText ce
    | none => Node.getText el
  let lang := match codeEl with
    | some ce =>
      match languageOf ce.attrsOf with
      | some l => l
      | none => (languageOf el.attrsOf).getD []
    | none => (languageOf el.attrsOf).getD []
  List.replicate 3 backquote ++ lang ++ '\n' :: code ++
    '\n' :: List.replicate 3 backquote ++ "\n\n".toList

/-- Markdown blockquote branch: stripped subtree text split at `'\n'`, each
line prefixed `"> "` (bare `">"` for blank lines), a trailing blank line. -/
def renderBlockquote (el : Node) : List Char :=
  let lines := splitNl (Node.getTextStrip el)
  let quoted := lines.map (fun l =>
    if pyStrip l ≠ [] then '>' :: ' ' :: l else ['>'])
  joinNL quoted ++ "\n\n".toList

/-- Markdown list branch for `<ul>` / `<ol>`: only direct `<li>` children
(`find_all('li', recursive=False)`), `N.` markers for ordered lists and `-`
otherwise; nothing is emitted for a list without direct `<li>` children. -/
def renderListEl (name : String) (el : Node) : List (List Char) :=
  let isOrdered := name = "ol"
  let lis := el.childrenOf.filter (fun c => c.name? = some "li")
  let items := lis.enum.map (fun p =>
    let marker := if isOrdered then (toString (p.1 + 1)).toList ++ ['.'] else ['-']
    marker ++ ' ' :: Node.getTextStrip p.2)
  if items = [] then [] else [joinNL items ++ "\n\n".toList]

/-- Python `'| ' + ' | '.join(cells) + ' |'`. -/
def pipeRow (cells : List (List Char)) : List Char :=
  '|' :: ' ' :: joinSep " | ".toList cells ++ " |".toList

/-- Markdown table branch.  `header_row = element.find('tr')`; when it has
cells, a header row and a separator row of `max(3, len(header_text))` dashes
per cell are emitted; `rows = element.find_all('tr')` is then walked with the
first row skipped whenever `header_row` exists (the `i == 0 and header_row`
`continue`), rows without cells contributing nothing. -/
def renderTable (el : Node) : List (List Char) :=
  let headerRow := findFirstTag "tr" el
  let headerRows :=
    match headerRow with
    | none => []
    | some hr =>
      let headers := (rowCells hr).map Node.getTextStrip
      if headers = [] then []
      else [pipeRow headers,
            pipeRow (headers.map (fun h => List.replicate (max 3 h.length) '-'))]
  let rows := findAllTag "tr" el
  let bodySource := if headerRow.isSome then rows.drop 1 else rows
  let bodyRows := bodySource.filterMap (fun row =>
    let cells := (rowCells row).map Node.getTextStrip
    if cells = [] then none else some (pipeRow cells))
  let tableRows := headerRows ++ bodyRows
  if tableRows = [] then [] else [joinNL tableRows ++ "\n\n".toList]

/-- The tag names whose branches end in `continue`, so that their children
are never pushed onto the work list (the same five names appear in the final
`element.name not in [...]` guard). -/
def specialConsumed : List String := ["pre", "blockquote", "ul", "ol", "table"]

/-- The fragments appended to `markdown_output` when one element is popped
from the work list — the whole `elif` chain of
`_process_element_iteratively`, in source order. -/
def elemFragments (el : Node) : List (List Char) :=
  match el with
  | .text _ => []
  | .elem name attrs _ =>
    if name ∈ headingNames then [renderHeading name el]
    else if name = "p" then
      (if Node.getTextStrip el ≠ [] then [Node.getTextStrip el ++ "\n\n".toList] else [])
    else if name = "a" then [renderA el]
    else if name = "img" then renderImg attrs
    else if name = "strong" ∨ name = "b" then
      (if Node.getTextStrip el ≠ [] then
        ['*' :: '*' :: Node.getTextStrip el ++ "**".toList] else [])
    else if name = "em" ∨ name = "i" then
      (if Node.getTextStrip el ≠ [] then
        ['*' :: Node.getTextStrip el ++ ['*']] else [])
    else if name = "code" then [renderCode el]
    else if name = "pre" then [renderPre el]
    else if name = "blockquote" then [renderBlockquote el]
    else if name = "ul" ∨ name = "ol" then renderListEl name el
    else if name = "table" then renderTable el
    else if name = "hr" then ["---\n\n".toList]
    else if name = "br" then ["\n".toList]
    else []

/-! ### Markdown formatter: the explicit work list -/

/-- Python `for child in reversed(children): stack.insert(0, (child, depth + 1))`
— the literal reversed fold; see `scheduleChildren_eq` for the resulting
shape. -/
def scheduleChildren (cs : List Node) (d : Nat) (rest : List (Node × Nat)) :
    List (Node × Nat) :=
  cs.reverse.foldl (fun acc c => (c, d + 1) :: acc) rest

theorem scheduleChildren_eq (cs : List Node) (d : Nat) (rest : List (Node × Nat)) :
    scheduleChildren cs d rest = cs.map (fun c => (c, d + 1)) ++ rest := by
  induction cs generalizing rest with
  | nil => rfl
  | cons c cs ih =>
    simp only [scheduleChildren, List.reverse_cons, List.foldl_append, List.foldl_cons,
      List.foldl_nil] at *
    rw [ih]
    simp

/-- The work list after one frame `(n, d)` has been processed: text nodes and
the five `specialConsumed` element kinds schedule nothing, every other
element schedules its children in front of the pending frames. -/
def schedule (n : Node) (d : Nat) (rest : List (Node × Nat)) : List (Node × Nat) :=
  match n with
  | .text _ => rest
  | .elem nm _ cs =>
    if nm ∈ specialConsumed then rest else scheduleChildren cs d rest

mutual
/-- Number of nodes in a subtree — the termination measure for the work-list
loop. -/
def Node.size : Node → Nat
  | .text _ => 1
  | .elem _ _ cs => 1 + Node.sizeList cs
def Node.sizeList : List Node → Nat
  | [] => 0
  | c :: cs => Node.size c + Node.sizeList cs
end

def framesWeight : List (Node × Nat) → Nat
  | [] => 0
  | (n, _) :: rest => n.size + framesWeight rest

theorem framesWeight_append (a b : List (Node × Nat)) :
    framesWeight (a ++ b) = framesWeight a + framesWeight b := by
  induction a with
  | nil => simp [framesWeight]
  | cons h t ih =>
    obtain ⟨n, d⟩ := h
    simp [framesWeight, ih]
    omega

theorem framesWeight_map (cs : List Node) (d : Nat) :
    framesWeight (cs.map (fun c => (c, d))) = Node.sizeList cs := by
  induction cs with
  | nil => simp [framesWeight, Node.sizeList]
  | cons h t ih => simp [framesWeight, Node.sizeList, ih]

theorem schedule_lt (n : Node) (d : Nat) (rest : List (Node × Nat)) :
    framesWeight (schedule n d rest) < n.size + framesWeight rest := by
  cases n with
  | text s => simp [schedule, Node.size]
  | elem nm a cs =>
    simp only [schedule]
    split
    · simp [Node.size]
    · rw [scheduleChildren_eq, framesWeight_append, framesWeight_map]
      simp [Node.size]

/-- The work-list loop of `_process_element_iteratively`: pop the front
frame, emit its fragments (text nodes emit their stripped string when
non-blank), and continue on the updated work list.  Termination over
`framesWeight` is exactly the well-founded measure justifying the claim that
the loop finishes on every finite tree. -/
def process_element_iteratively : List (Node × Nat) → List (List Char)
  | [] => []
  | (Node.text s, _) :: rest =>
    (if pyStrip s.toList ≠ [] then [pyStrip s.toList] else []) ++
      process_element_iteratively rest
  | (Node.elem name attrs cs, d) :: rest =>
    elemFragments (Node.elem name attrs cs) ++
      process_element_iteratively (schedule (Node.elem name attrs cs) d rest)
termination_by fs => framesWeight fs
decreasing_by
  · rename_i d
    have h := schedule_lt (Node.text s) d rest
    simp only [schedule] at h
    simp only [framesWeight]
    omega
  · have h := schedule_lt (Node.elem name attrs cs) d rest
    simp only [framesWeight]
    omega

/-- The sequence of nodes consumed from the work list, in consumption order
(the same loop as `process_element_iteratively`, instrumented to record the
popped node instead of its output fragments). -/
def consumedSeq : List (Node × Nat) → List Node
  | [] => []
  | (n, d) :: rest => n :: consumedSeq (schedule n d rest)
termination_by fs => framesWeight fs
decreasing_by
  rename_i d
  have h := schedule_lt n d rest
  simp only [framesWeight]
  omega

mutual
/-- Document (pre-)order listing of the nodes the markdown traversal visits:
each node before its visited descendants, children in order, with the
subtrees of the five `specialConsumed` element kinds pruned (their rendering
consumed them). -/
def mdPreorder : Node → List Node
  | .text s => [.text s]
  | .elem nm a cs =>
    .elem nm a cs :: (if nm ∈ specialConsumed then [] else mdPreorderList cs)
def mdPreorderList : List Node → List Node
  | [] => []
  | c :: cs => mdPreorder c ++ mdPreorderList cs
end

mutual
/-- Structural (per-subtree) restatement of the markdown work-list output;
`process_frames_eq` proves it equal to the loop. -/
def mdRender : Node → List (List Char)
  | .text s => if pyStrip s.toList ≠ [] then [pyStrip s.toList] else []
  | .elem nm a cs =>
    elemFragments (.elem nm a cs) ++
      (if nm ∈ specialConsumed then [] else mdRenderList cs)
def mdRenderList : List Node → List (List Char)
  | [] => []
  | c :: cs => mdRender c ++ mdRenderList cs
end

theorem mdPreorderList_eq (cs : List Node) : mdPreorderList cs = cs.flatMap mdPreorder := by
  induction cs with
  | nil => rfl
  | cons c cs ih => simp [mdPreorderList, ih]

theorem mdRenderList_eq (cs : List Node) : mdRenderList cs = cs.flatMap mdRender := by
  induction cs with
  | nil => rfl
  | cons c cs ih => simp [mdRenderList, ih]

theorem consumedSeq_eq_preorder :
    ∀ fs, consumedSeq fs = (fs.map Prod.fst).flatMap mdPreorder := by
  intro fs
  induction fs using consumedSeq.induct with
  | case1 => simp [consumedSeq]
  | case2 n d rest ih =>
    rw [consumedSeq, ih]
    cases n with
    | text s => simp [schedule, mdPreorder]
    | elem nm a cs =>
      simp only [schedule]
      split
      · simp_all [mdPreorder]
      · rw [scheduleChildren_eq]
        simp_all [mdPreorder, mdPreorderList_eq, Function.comp_def]

theorem process_frames_eq :
    ∀ fs, process_element_iteratively fs = (fs.map Prod.fst).flatMap mdRender := by
  intro fs
  induction fs using process_element_iteratively.induct with
  | case1 => simp [process_element_iteratively]
  | case2 s d rest ih =>
    rw [process_element_iteratively]
    simp only [schedule] at ih
    simp [ih, mdRender]
  | case3 name attrs cs d rest ih =>
    rw [process_element_iteratively, ih]
    simp only [schedule]
    split
    · simp_all [mdRender]
    · rw [scheduleChildren_eq]
      simp_all [mdRender, mdRenderList_eq, Function.comp_def]

/-! ### Markdown formatter: post-processing and top-level conversion -/

/-- Python `re.sub(r'\n{3,}', '\n\n', s)`: every maximal run of three or more
newlines collapses to exactly two (a newline is dropped while at least two
more follow it, so exactly the last two of the run survive). -/
def collapseNL : List Char → List Char
  | [] => []
  | c :: rest =>
    if c = '\n' ∧ rest.head? = some '\n' ∧ rest.tail.head? = some '\n' then
      collapseNL rest
    else c :: collapseNL rest

/-- Length of the leading run of `'#'` characters. -/
def hashRun : List Char → Nat
  | [] => 0
  | c :: rest => if c = '#' then hashRun rest + 1 else 0

/-- Python `re.sub(r'([^\n])\n(#{1,6} )', r'\1\n\n\2', s)`: a left-to-right
scan; at a non-newline character followed by `'\n'`, one to six `'#'` and a
space, a second newline is inserted and the scan resumes after the space
(the hash run must end at the space, as a longer run makes every
backtracking attempt of `#{1,6}` fail). -/
def headingSp : List Char → List Char
  | [] => []
  | [c] => [c]
  | c :: d :: rest =>
    if c = '\n' then c :: headingSp (d :: rest)
    else if d = '\n' then
      let r := hashRun rest
      if 1 ≤ r ∧ r ≤ 6 ∧ (rest.drop r).head? = some ' ' then
        c :: '\n' :: '\n' :: (rest.take (r + 1) ++ headingSp (rest.drop (r + 1)))
      else c :: headingSp (d :: rest)
    else c :: headingSp (d :: rest)
termination_by s => s.length
decreasing_by
  · simp
  · simp only [List.length_cons, List.length_drop]
    omega
  · simp
  · simp

/-- The main-content search of `_html_to_markdown`:
`soup.find("main") or soup.find("article") or soup.find("div", {"id":
"content"}) or soup.find("div", {"class": "content"}) or soup.find("div",
{"role": "main"}) or soup.body`, falling back to the whole soup.  A `class`
filter matches when the wanted class is one of the space-separated classes. -/
def findMainContent (doc : Node) : Node :=
  match findFirstTag "main" doc with
  | some m => m
  | none =>
  match findFirstTag "article" doc with
  | some m => m
  | none =>
  match (descendants doc).find? (fun d =>
      d.name? = some "div" && getAttr d.attrsOf "id" = some "content") with
  | some m => m
  | none =>
  match (descendants doc).find? (fun d =>
      d.name? = some "div" &&
        (splitWs ((getAttrD d.attrsOf "class" "").toList)).contains "content".toList) with
  | some m => m
  | none =>
  match (descendants doc).find? (fun d =>
      d.name? = some "div" && getAttr d.attrsOf "role" = some "main") with
  | some m => m
  | none =>
  match findFirstTag "body" doc with
  | some m => m
  | none => doc

/-- The body of `MarkdownFormatter._html_to_markdown` after parsing: run the
work list seeded with the main content at depth 0, join the fragment buffer
with newlines, then apply the two clean-up substitutions. -/
def html_to_markdown (doc : Node) : String :=
  let fragments := process_element_iteratively [(findMainContent doc, 0)]
  String.mk (headingSp (collapseNL (joinNL fragments)))

theorem hashRun_pos_mem {rest : List Char} (h : 1 ≤ hashRun rest) : '#' ∈ rest := by
  cases rest with
  | nil => simp [hashRun] at h
  | cons r rs =>
    by_cases hr : r = '#'
    · simp [hr]
    · simp [hashRun, hr] at h

/-- The heading-spacing substitution does not touch a string without `'#'`. -/
theorem headingSp_no_hash : ∀ s : List Char, '#' ∉ s → headingSp s = s := by
  intro s
  induction s using headingSp.induct with
  | case1 => intro _; simp [headingSp]
  | case2 c => intro _; simp [headingSp]
  | case3 d rest ih =>
    intro h
    have hd : '#' ∉ d :: rest := by simp_all
    simp only [headingSp, ih hd, ite_true, if_true]
  | case4 c rest hc r hcond ih =>
    intro h
    exact absurd (List.mem_cons_of_mem _ (List.mem_cons_of_mem _ (hashRun_pos_mem hcond.1))) h
  | case5 c rest hc r hcond ih =>
    intro h
    have hd : '#' ∉ '\n' :: rest := by simp_all
    simp only [headingSp, hc, hcond, if_false, ite_false, ite_true, ih hd]
  | case6 c d rest hc hd ih =>
    intro h
    have hd2 : '#' ∉ d :: rest := by simp_all
    simp only [headingSp, hc, hd, if_false, ite_false, ite_true, ih hd2]

/-- Evaluation form of `html_to_markdown` through the structural renderer. -/
theorem html_to_markdown_eq (doc : Node) :
    html_to_markdown doc =
      String.mk (headingSp (collapseNL (joinNL (mdRender (findMainContent doc))))) := by
  unfold html_to_markdown
  rw [process_frames_eq]
  simp

/-! ### XML formatter: name sanitisation (`xml_formatter.py`) -/

/-- The characters the sanitiser keeps — the regex class `[a-zA-Z0-9_-]` of
`re.sub(r'[^a-zA-Z0-9_-]', '_', name)`. -/
def isXmlNameChar (c : Char) : Bool :=
  ('a' ≤ c && c ≤ 'z') || ('A' ≤ c && c ≤ 'Z') || ('0' ≤ c && c ≤ '9') ||
    c = '_' || c = '-'

/-- Python `re.sub(r'[^a-zA-Z0-9_-]', '_', name)`. -/
def xmlSubInvalid (name : String) : String :=
  String.mk (name.toList.map (fun c => if isXmlNameChar c then c else '_'))

/-- Truthiness of Python `re.match(r'^[a-zA-Z_]', s)`. -/
def startsAlphaUnd (s : String) : Bool :=
  match s.toList with
  | [] => false
  | c :: _ => ('a' ≤ c && c ≤ 'z') || ('A' ≤ c && c ≤ 'Z') || c = '_'

/-- `XMLFormatter._sanitize_tag_name`: empty names become `"tag"`, invalid
characters become `'_'`, and a result not starting with a letter or
underscore is prefixed with `"tag_"`. -/
def sanitize_tag_name (name : String) : String :=
  if name = "" then "tag"
  else
    let sanitized := xmlSubInvalid name
    if startsAlphaUnd sanitized then sanitized else "tag_" ++ sanitized

/-- `XMLFormatter._sanitize_attr_name`: `class` and `for` are special-cased
to `class_attr` / `for_attr` before the generic rule, which prefixes
`"attr_"` instead of `"tag_"`. -/
def sanitize_attr_name (name : String) : String :=
  if name = "class" then "class_attr"
  else if name = "for" then "for_attr"
  else
    let sanitized := xmlSubInvalid name
    if startsAlphaUnd sanitized then sanitized else "attr_" ++ sanitized

/-- The sanitisation rule exactly as the specification words it: "invalid
characters replaced with `_`, names forced to start with a letter or
underscore" by prefixing `pre` (`"tag_"` for tags, `"attr_"` for
attributes), with no further exception.  Used to compare the claimed rule
with the implemented functions. -/
def claimSanitizeRule (pre name : String) : String :=
  let replaced := xmlSubInvalid name
  if startsAlphaUnd replaced then replaced else pre ++ replaced


/-! ### XML formatter: `XMLFormatter._process_element` (`xml_formatter.py`)

The recursive builder of the `xml.etree.ElementTree` tree for the XML
dialect.  `none` models the exception the Python code raises in the
`important_attrs` loop: the loop variable is rebound to the sanitised name
*before* the `element.attrs[attr]` lookup, so an element carrying a `class`
attribute raises `KeyError` (`class_attr` is not a key of `element.attrs`).
The `important_attrs` value is a Python `set`; within one process a set
enumerates in one fixed (hash-seed dependent) order, so that order is
passed as an explicit parameter rather than fixed by the model. -/

/-- The `skip_tags` set of `XMLFormatter.__init__`. -/
def xmlSkipTags : List String :=
  ["script", "style", "noscript", "iframe", "svg", "canvas", "meta",
   "link", "input", "button", "form", "template"]

/-- The keys of `XMLFormatter.tag_mapping` — the dict maps every key to
itself, so only key membership matters. -/
def xmlTagMappingKeys : List String :=
  ["h1", "h2", "h3", "h4", "h5", "h6",
   "article", "section", "main", "div", "aside", "header", "footer", "nav",
   "p", "blockquote", "pre", "code",
   "ul", "ol", "li",
   "table", "thead", "tbody", "tfoot", "tr", "th", "td",
   "a", "span", "strong", "em", "b", "i", "u", "mark",
   "img", "figure", "figcaption", "picture", "video", "audio",
   "hr", "br"]

/-- The contents of the `important_attrs` set (its enumeration order is a
parameter of the builder). -/
def xmlImportantAttrs : List String :=
  ["id", "class", "href", "src", "alt", "title", "aria-label", "role"]

def apostropheChar : Char := Char.ofNat 39

/-- Python `html.escape(text)` with its default `quote=True` — the escaping
used by `_escape_text` and `_escape_attr`. -/
def htmlEscape (s : List Char) : List Char :=
  s.flatMap (fun c =>
    if c = '&' then "&amp;".toList
    else if c = '<' then "&lt;".toList
    else if c = '>' then "&gt;".toList
    else if c = '"' then "&quot;".toList
    else if c = apostropheChar then "&#x27;".toList
    else [c])

/-- `XMLFormatter._escape_text` (falsy text yields `""`; `_escape_attr` is
the same function, `quote=True` being `html.escape`'s default). -/
def xml_escape_text (s : List Char) : List Char :=
  if s = [] then [] else htmlEscape s

/-- `ElementTree.Element.set(key, value)`: replace an existing binding in
place, or append a new one (attribute dicts keep insertion order). -/
def xmlSetAttr (attrs : List (String × String)) (k v : String) :
    List (String × String) :=
  if (attrs.find? (fun p => p.1 == k)).isSome then
    attrs.map (fun p => if p.1 == k then (k, v) else p)
  else attrs ++ [(k, v)]

/-- An `ElementTree` element as `_process_element` builds it: tag,
attributes in `.set` order, the `.text` slot, children.  (`.tail` is never
assigned by the builder.) -/
inductive XElem where
  | node (tag : String) (attrib : List (String × String))
      (text : Option (List Char)) (children : List XElem)

/-- The `preserve_attrs=True` loop: every attribute of the element, name
sanitised, value escaped (multi-valued attributes are stored space-joined
in the `Node` model, so the `' '.join` on list values is the identity
here). -/
def xmlPreserveAttrs (attrs : List (String × String)) : List (String × String) :=
  attrs.foldl (fun acc p =>
    xmlSetAttr acc (sanitize_attr_name p.1) (String.mk (xml_escape_text p.2.toList))) []

/-- The `preserve_attrs=False` loop over the `important_attrs` enumeration
`order`: membership is tested with the original name, then the loop
variable is rebound to the sanitised name and the value is looked up under
that sanitised name — `none` is the resulting `KeyError` when the two
differ (the `class` attribute). -/
def xmlImportantAttrsFold (attrs : List (String × String)) (order : List String) :
    Option (List (String × String)) :=
  order.foldl (fun acc attr =>
    match acc with
    | none => none
    | some cur =>
      if (getAttr attrs attr).isSome then
        let attr2 := sanitize_attr_name attr
        match getAttr attrs attr2 with
        | none => none
        | some v => some (xmlSetAttr cur attr2 (String.mk (xml_escape_text v.toList)))
      else some cur) (some [])

mutual
/-- `XMLFormatter._process_element(element, parent_xml)`: returns the parent
element with this node's contribution added.  A non-blank text node is
escaped and joined onto the parent's `.text` with a space; a tag in
`skip_tags`, or a non-void element with no stripped text, contributes
nothing; otherwise a new child element is created with the mapped or
sanitised tag name and the selected attributes, and the children are
processed into it. -/
def xml_process_element (simplify preserve : Bool) (order : List String) :
    Node → XElem → Option XElem
  | .text s, parent =>
    if pyStrip s.toList ≠ [] then
      match parent with
      | .node tg ats txt cs =>
        let safe := xml_escape_text (pyStrip s.toList)
        match txt with
        | none => some (.node tg ats (some safe) cs)
        | some t => some (.node tg ats (some (t ++ ' ' :: safe)) cs)
    else some parent
  | .elem nm attrs children, parent =>
    if nm ∈ xmlSkipTags then some parent
    else if ¬(nm ∈ ["img", "br", "hr"]) ∧
        Node.getTextStrip (.elem nm attrs children) = [] then some parent
    else
      let tagName := if simplify ∧ nm ∈ xmlTagMappingKeys then nm
                     else sanitize_tag_name nm
      match (if preserve then some (xmlPreserveAttrs attrs)
             else xmlImportantAttrsFold attrs order) with
      | none => none
      | some newAttrs =>
        match xml_process_children simplify preserve order children
            (.node tagName newAttrs none []) with
        | none => none
        | some newElem =>
          match parent with
          | .node tg ats txt cs => some (.node tg ats txt (cs ++ [newElem]))
def xml_process_children (simplify preserve : Bool) (order : List String) :
    List Node → XElem → Option XElem
  | [], acc => some acc
  | c :: rest, acc =>
    match xml_process_element simplify preserve order c acc with
    | none => none
    | some acc2 => xml_process_children simplify preserve order rest acc2
end

/-! ### HTML formatter: `HTMLFormatter._format_node` (`html_formatter.py`)

The recursive pretty-printer.  The leading
`if not node or not str(node).strip(): return` can only fire for text nodes
(an element's serialisation always contains its tag), so it is modelled on
the text branch. -/

/-- The `block_elements` set from `HTMLFormatter.__init__`. -/
def blockElements : List String :=
  ["div", "p", "h1", "h2", "h3", "h4", "h5", "h6",
   "ul", "ol", "li", "table", "tr", "td", "th",
   "article", "section", "header", "footer", "nav",
   "aside", "main", "figure", "figcaption", "form",
   "pre", "blockquote", "hr"]

/-- The `self_closing` set from `HTMLFormatter.__init__`. -/
def selfClosingTags : List String :=
  ["img", "br", "hr", "meta", "input", "link",
   "area", "base", "col", "embed", "param", "source",
   "track", "wbr"]

/-- The tags `_format_node` skips outright. -/
def htmlSkipTags : List String := ["script", "style", "noscript", "iframe"]

/-- BeautifulSoup's `.string` property: the unique string of a tag that has
exactly one child, following single-child chains. -/
def Node.stringProp : Node → Option String
  | .text s => some s
  | .elem _ _ [c] => Node.stringProp c
  | .elem _ _ _ => none

/-- Python `' '.join([f'{k}="{v}"' for k, v in node.attrs.items()])`. -/
def attrsString (attrs : List (String × String)) : List Char :=
  joinSep [' '] (attrs.map (fun p => p.1.toList ++ '=' :: '"' :: p.2.toList ++ ['"']))

/-- The `start_tag` built by `_format_node` (indentation, name, attributes). -/
def startTagStr (indentLevel : Nat) (name : String) (attrs : List (String × String)) :
    List Char :=
  let ind := List.replicate (indentLevel * 2) ' '
  let a := attrsString attrs
  if a = [] then ind ++ '<' :: name.toList ++ ['>']
  else ind ++ '<' :: name.toList ++ ' ' :: a ++ ['>']

mutual
/-- `HTMLFormatter._format_node`, returning the lines appended to `output`. -/
def format_node : Node → Nat → Bool → List (List Char)
  | .text s, indentLevel, inPre =>
    if pyStrip s.toList = [] then []
    else if inPre then [s.toList]
    else
      let t := pyStrip (collapseWs s.toList)
      if t ≠ [] then [List.replicate (indentLevel * 2) ' ' ++ t] else []
  | .elem name attrs cs, indentLevel, inPre =>
    let currentInPre := inPre || name = "pre"
    if name ∈ htmlSkipTags then []
    else
      let start := startTagStr indentLevel name attrs
      let ind := List.replicate (indentLevel * 2) ' '
      if name ∈ selfClosingTags then [start]
      else if name ∈ blockElements && !currentInPre then
        start :: format_nodeList cs (indentLevel + 1) currentInPre ++
          [ind ++ '<' :: '/' :: name.toList ++ ['>']]
      else if !currentInPre then
        if cs.length = 1 ∧ (Node.stringProp (.elem name attrs cs)).getD "" ≠ "" then
          let t := pyStrip (collapseWs ((Node.stringProp (.elem name attrs cs)).getD "").toList)
          [start ++ t ++ '<' :: '/' :: name.toList ++ ['>']]
        else
          start :: format_nodeList cs (indentLevel + 1) currentInPre ++
            [ind ++ '<' :: '/' :: name.toList ++ ['>']]
      else
        start ::
          (match Node.stringProp (.elem name attrs cs) with
           | some t =>
             if t ≠ "" then [t.toList]
             else format_nodeList cs 0 currentInPre
           | none => format_nodeList cs 0 currentInPre) ++
          ['<' :: '/' :: name.toList ++ ['>']]
def format_nodeList : List Node → Nat → Bool → List (List Char)
  | [], _, _ => []
  | c :: cs, indentLevel, inPre =>
    format_node c indentLevel inPre ++ format_nodeList cs indentLevel inPre
end

/-! ### Web extractor (`sources/web/extractor.py`) -/

/-- The `tags_to_extract` list of `parse_with_fallback`. -/
def extractTags : List String :=
  ["h1", "h2", "h3", "h4", "h5", "h6", "span", "p", "li"]

mutual
/-- One node of the `parse_with_fallback` list comprehension
(`main_content.find_all(tags_to_extract)` in document order, minus any `<p>`
whose parent is an `<li>`): the node itself when its tag qualifies, followed
by the matches inside it. -/
def extractNode (parent : String) : Node → List Node
  | .text _ => []
  | .elem nm a cs =>
    (if nm ∈ extractTags ∧ ¬(nm = "p" ∧ parent = "li") then [Node.elem nm a cs] else []) ++
      extractNodeList nm cs
def extractNodeList (parent : String) : List Node → List Node
  | [] => []
  | c :: rest => extractNode parent c ++ extractNodeList parent rest
end

/-- The `elements` list of `parse_with_fallback` for a given main-content
node. -/
def extractFrom : Node → List Node
  | .text _ => []
  | .elem nm _ cs => extractNodeList nm cs

/-- First index at which `pat` occurs in `s`. -/
def findSubIdx (pat : List Char) : List Char → Option Nat
  | [] => if pat = [] then some 0 else none
  | c :: rest =>
    if startsWithL pat (c :: rest) then some 0
    else (findSubIdx pat rest).map (· + 1)

/-- Python `re.sub(r'^<svg.*?</svg>\s*', '', text, flags=re.DOTALL)`: when
the text starts with `<svg`, drop everything up to and including the first
`</svg>` and any following whitespace; otherwise (including when `</svg>`
never occurs, so the lazy match fails) leave the text unchanged. -/
def removeSvg (s : List Char) : List Char :=
  if startsWithL "<svg".toList s then
    match findSubIdx "</svg>".toList (s.drop 4) with
    | some i => (s.drop (4 + i + 6)).dropWhile pySpace
    | none => s
  else s

/-- The per-element text clean-up both extractor processors apply after
`get_text(strip=True)`: the SVG prefix removal, then
`re.sub(r'\s+', ' ', text).strip()`. -/
def cleanExtractText (s : List Char) : List Char :=
  pyStrip (collapseWs (removeSvg s))

/-- Python `f"{tag.name}: {text}"`. -/
def tagLine (name : String) (text : List Char) : List Char :=
  name.toList ++ ':' :: ' ' :: text

/-- The loop state of `process_tagged_format`: emitted lines, pending
span buffer, seen list-item texts. -/
structure TaggedState where
  lines : List (List Char)
  spanBuf : List (List Char)
  seen : List (List Char)

/-- One iteration of the `for tag in elements` loop of
`process_tagged_format`. -/
def taggedStep (st : TaggedState) (el : Node) : TaggedState :=
  let text := cleanExtractText (Node.getTextStrip el)
  if el.name? = some "span" then
    { st with spanBuf := st.spanBuf ++ [text] }
  else
    let st1 :=
      if st.spanBuf ≠ [] then
        { st with lines := st.lines ++ [tagLine "span" (joinSep [' '] st.spanBuf)],
                  spanBuf := [] }
      else st
    if el.name? = some "li" then
      if text ∈ st1.seen then st1
      else { st1 with seen := st1.seen ++ [text],
                      lines := st1.lines ++ [tagLine "li" text] }
    else
      if text ≠ [] then
        { st1 with lines := st1.lines ++ [tagLine (el.name?.getD "") text] }
      else st1

/-- The final `output_lines` of `process_tagged_format`, including the flush
of a trailing span buffer. -/
def taggedLinesFinal (elements : List Node) (seen : List (List Char)) :
    List (List Char) :=
  let st := elements.foldl taggedStep ⟨[], [], seen⟩
  if st.spanBuf ≠ [] then st.lines ++ [tagLine "span" (joinSep [' '] st.spanBuf)]
  else st.lines

/-- `process_tagged_format(elements, seen_list_items, output)`: the lines are
joined with newlines onto `output` and a final horizontal rule is added. -/
def process_tagged_format (elements : List Node) (seen : List (List Char))
    (output : List Char) : List Char :=
  output ++ joinNL (taggedLinesFinal elements seen) ++ "\n\n---\n".toList

/-- `convert_to_markdown(tag_name, text)` from the extractor. -/
def convert_to_markdown (tagName : String) (text : List Char) : List Char :=
  if startsWithL ['h'] tagName.toList then
    match tagName.toList with
    | _ :: c :: _ =>
      if c.isDigit then List.replicate (c.toNat - 48) '#' ++ ' ' :: text ++ "\n\n".toList
      else '#' :: ' ' :: text ++ "\n\n".toList
    | _ => '#' :: ' ' :: text ++ "\n\n".toList
  else if tagName = "p" then text ++ "\n\n".toList
  else if tagName = "li" then '-' :: ' ' :: text ++ "\n".toList
  else if tagName = "span" then text
  else text ++ "\n\n".toList

/-- The `while i < len(elements)` loop of `process_markdown_format`,
producing the `processed_texts` pairs: maximal runs of `<span>` elements are
concatenated with spaces (their text taken raw from `get_text(strip=True)`),
list items are deduplicated against `seen`, and other elements contribute
their cleaned text when non-empty. -/
def mdCollect (seen : List (List Char)) : List Node → List (String × List Char)
  | [] => []
  | el :: rest =>
    if el.name? = some "span" then
      let spans := el :: rest.takeWhile (fun e => e.name? = some "span")
      let rest' := rest.dropWhile (fun e => e.name? = some "span")
      ("span", joinSep [' '] (spans.map Node.getTextStrip)) :: mdCollect seen rest'
    else
      let text := cleanExtractText (Node.getTextStrip el)
      if el.name? = some "li" then
        if text ∈ seen then mdCollect seen rest
        else ("li", text) :: mdCollect (seen ++ [text]) rest
      else
        (if text ≠ [] then [(el.name?.getD "", text)] else []) ++ mdCollect seen rest
termination_by els => els.length
decreasing_by
  · have := length_dropWhile_le (fun e : Node => decide (e.name? = some "span")) cs
    simp only [List.length_cons]
    omega
  · simp
  · simp
  · simp

/-- `process_markdown_format(elements, seen_list_items, output)`. -/
def process_markdown_format (elements : List Node) (seen : List (List Char))
    (output : List Char) : List Char :=
  let processed := mdCollect seen elements
  output ++ (processed.map (fun p => convert_to_markdown p.1 p.2)).flatten ++
    "\n---\n".toList

/-- Python `soup.find("meta", property=v)`. -/
def findMetaProp (doc : Node) (v : String) : Option Node :=
  (descendants doc).find? (fun d =>
    d.name? = some "meta" && getAttr d.attrsOf "property" = some v)

mutual
/-- The `for tag in soup.find_all(['nav', 'footer']): tag.decompose()` pass
of `parse_with_fallback`: every `<nav>` / `<footer>` subtree is removed. -/
def stripNavFooterNode : Node → Option Node
  | .text s => some (.text s)
  | .elem nm a cs =>
    if nm = "nav" ∨ nm = "footer" then none
    else some (.elem nm a (stripNavFooterList cs))
def stripNavFooterList : List Node → List Node
  | [] => []
  | c :: rest =>
    match stripNavFooterNode c with
    | none => stripNavFooterList rest
    | some n => n :: stripNavFooterList rest
end

/-- The nav/footer removal applied to the soup (the soup root itself is not
a tag). -/
def stripNavFooter : Node → Node
  | .text s => .text s
  | .elem nm a cs => .elem nm a (stripNavFooterList cs)

/-- `parse_with_fallback(html_content, url, format_type)` on the parsed
document `doc`.  `none` models the two places the Python function raises:
`og_title['content']` / `og_description['content']` on a `<meta>` without a
`content` attribute (`KeyError`), and `main_content.find_all(...)` when the
document has neither `<main>` nor `<body>` (`AttributeError` on `None`).
The results of `process_markdown_format` / `process_tagged_format` are bound
and discarded, exactly as the Python code calls them without using their
return value — strings being immutable, the local `output` they were passed
is unaffected. -/
def parse_with_fallback (doc : Node) (url : String) (formatType : String) :
    Option (List Char) := do
  let out0 :=
    if formatType = "markdown" then
      "### [".toList ++ url.toList ++ "](".toList ++ url.toList ++ ")\n\n".toList
    else "URL: ".toList ++ url.toList ++ "\n\n".toList
  let out1 ←
    match findMetaProp doc "og:title" with
    | none => some out0
    | some m =>
      match getAttr m.attrsOf "content" with
      | none => none
      | some c =>
        if formatType = "markdown" then
          some (out0 ++ "**Title:** ".toList ++ c.toList ++ ['\n'])
        else some (out0 ++ "Title: ".toList ++ c.toList ++ ['\n'])
  let out2 ←
    match findMetaProp doc "og:description" with
    | none => some out1
    | some m =>
      match getAttr m.attrsOf "content" with
      | none => none
      | some c =>
        if formatType = "markdown" then
          some (out1 ++ "**Description:** ".toList ++ c.toList ++ ['\n'])
        else some (out1 ++ "Description: ".toList ++ c.toList ++ ['\n'])
  let out3 := out2 ++
    (if formatType = "markdown" then "\n# Content\n\n".toList else "\nContent:\n\n".toList)
  let cleaned := stripNavFooter doc
  match findFirstTag "main" cleaned with
  | some mainContent =>
    let elements := extractFrom mainContent
    let seenListItems : List (List Char) := []
    let _discarded :=
      if formatType = "markdown" then
        process_markdown_format elements seenListItems out3
      else process_tagged_format elements seenListItems out3
    some out3
  | none =>
    let out4 := out3 ++
      (if formatType = "markdown" then
        "No <main> tag found. Extracting from entire body.\n\n".toList
      else "No <main> tag found. Extracting from entire body.\n".toList)
    match findFirstTag "body" cleaned with
    | none => none
    | some mainContent =>
      let elements := extractFrom mainContent
      let seenListItems : List (List Char) := []
      let _discarded :=
        if formatType = "markdown" then
          process_markdown_format elements seenListItems out4
        else process_tagged_format elements seenListItems out4
      some out4

/-! ### Scraper list-item deduplication (`Scraper._deduplicate_list_items`) -/

/-- The `<li>` texts of the document in `find_all("li")` (document) order —
the sequence the first phase of `_deduplicate_list_items` walks, adding each
text to `seen_list_items` and marking the element for removal when the text
was already present. -/
def liTexts (doc : Node) : List (List Char) :=
  (findAllTag "li" doc).map Node.getTextStrip

/-- Whether the `i`-th `<li>` of the original document ends up on
`items_to_remove`: its stripped text occurs among the texts of the earlier
`<li>` elements. -/
def liMarked (texts : List (List Char)) (i : Nat) : Bool :=
  (texts.take i).contains (texts.getD i [])

mutual
def liCount : Node → Nat
  | .text _ => 0
  | .elem nm _ cs => (if nm = "li" then 1 else 0) + liCountList cs
def liCountList : List Node → Nat
  | [] => 0
  | c :: cs => liCount c + liCountList cs
end

mutual
/-- Phase two of `_deduplicate_list_items` (`li.decompose()` for every
marked `<li>`, removing its whole subtree).  The `Nat` argument and result
thread the document-order `<li>` index; a removed `<li>` still advances the
counter across its subtree because the marks were collected on the intact
document. -/
def removeMarkedNode (marked : Nat → Bool) : Node → Nat → Option Node × Nat
  | .text s, i => (some (.text s), i)
  | .elem nm a cs, i =>
    if nm = "li" then
      if marked i then (none, i + 1 + liCountList cs)
      else
        let r := removeMarkedList marked cs (i + 1)
        (some (.elem nm a r.1), r.2)
    else
      let r := removeMarkedList marked cs i
      (some (.elem nm a r.1), r.2)
def removeMarkedList (marked : Nat → Bool) : List Node → Nat → List Node × Nat
  | [], i => ([], i)
  | c :: rest, i =>
    let rc := removeMarkedNode marked c i
    let rr := removeMarkedList marked rest rc.2
    (match rc.1 with
     | none => rr.1
     | some n => n :: rr.1, rr.2)
end

/-- `Scraper._deduplicate_list_items(soup)`: mark duplicates on a first pass
over `soup.find_all("li")`, then remove the marked elements. -/
def deduplicate_list_items (doc : Node) : Node :=
  let texts := liTexts doc
  match doc with
  | .text s => .text s
  | .elem nm a cs => .elem nm a (removeMarkedList (liMarked texts) cs 0).1

/-! ### Formatter instance state (determinism claims) -/

/-- The attributes a `MarkdownFormatter` instance carries (`__init__` of
`base_formatter.py` and `markdown_formatter.py`). -/
structure MarkdownFormatterState where
  include_images : Bool
  image_map : List (String × String)
  add_frontmatter : Bool
  include_source_link : Bool
  indent_level : Nat
  current_depth : Nat
  max_depth : Nat

/-- `_html_to_markdown` as a state transformer on its instance: the method
body reads none of the instance attributes and assigns none of them (its
only `self.` use is the call to `_process_element_iteratively`, which
likewise touches no attribute), so it returns the converted string together
with the unchanged instance state. -/
def html_to_markdown_run (st : MarkdownFormatterState) (doc : Node) :
    String × MarkdownFormatterState :=
  (html_to_markdown doc, st)


/-- The attributes an `XMLFormatter` instance carries.  `tag_mapping`,
`skip_tags` and `important_attrs` are also instance attributes, but they
are constants fixed at `__init__`; the process-fixed enumeration order of
the `important_attrs` set travels alongside the state as an explicit
parameter. -/
structure XMLFormatterState where
  include_images : Bool
  image_map : List (String × String)
  simplify_structure : Bool
  preserve_attrs : Bool

/-- `_process_element` as a state transformer on its `XMLFormatter`
instance: it reads the `simplify_structure` / `preserve_attrs` flags and
the constant tag sets, and assigns no attribute, so the instance state
passes through unchanged.  The steps that follow it in `format`
(`_clean_xml_structure`, `ET.tostring`, `minidom.toprettyxml`) are
deterministic functions of the built tree — attributes serialise in dict
insertion order — so the built tree determines the output bytes. -/
def xml_process_element_run (st : XMLFormatterState) (order : List String)
    (el : Node) (parent : XElem) : Option XElem × XMLFormatterState :=
  (xml_process_element st.simplify_structure st.preserve_attrs order el parent, st)

/-- The attributes an `HTMLFormatter` instance carries (the two tag sets
fixed at `__init__` are the constants `blockElements` /
`selfClosingTags`). -/
structure HTMLFormatterState where
  include_images : Bool
  image_map : List (String × String)
  clean_html : Bool
  add_boilerplate : Bool
  add_css : Bool

/-- `_format_node` as a state transformer on its `HTMLFormatter` instance:
beyond the two constant tag sets it reads no instance attribute and
assigns none. -/
def format_node_run (st : HTMLFormatterState) (n : Node) (indentLevel : Nat)
    (inPre : Bool) : List (List Char) × HTMLFormatterState :=
  (format_node n indentLevel inPre, st)

/-- Two consecutive tagged conversions: each `parse_with_fallback` call
allocates a fresh `seen_list_items` set, so the calls share no state. -/
def tagged_session (doc1 doc2 : Node) (url : String) :
    Option (List Char) × Option (List Char) :=
  (parse_with_fallback doc1 url "tagged", parse_with_fallback doc2 url "tagged")

/-! ### Claim-side renderings (written from the specification's wording) -/

/-- The metadata header that claim C10 says `parse_with_fallback` returns:
the URL line, the optional OpenGraph title and description lines, the
content marker, and possibly the no-`<main>` notice — nothing produced by
the two `process_*_format` helpers.  (`none` in the same failure cases as
the code: a matching `<meta>` without `content`, or no `<main>`/`<body>`.) -/
def fallbackMetadataHeader (doc : Node) (url : String) (formatType : String) :
    Option (List Char) := do
  let out0 :=
    if formatType = "markdown" then
      "### [".toList ++ url.toList ++ "](".toList ++ url.toList ++ ")\n\n".toList
    else "URL: ".toList ++ url.toList ++ "\n\n".toList
  let out1 ←
    match findMetaProp doc "og:title" with
    | none => some out0
    | some m =>
      match getAttr m.attrsOf "content" with
      | none => none
      | some c =>
        if formatType = "markdown" then
          some (out0 ++ "**Title:** ".toList ++ c.toList ++ ['\n'])
        else some (out0 ++ "Title: ".toList ++ c.toList ++ ['\n'])
  let out2 ←
    match findMetaProp doc "og:description" with
    | none => some out1
    | some m =>
      match getAttr m.attrsOf "content" with
      | none => none
      | some c =>
        if formatType = "markdown" then
          some (out1 ++ "**Description:** ".toList ++ c.toList ++ ['\n'])
        else some (out1 ++ "Description: ".toList ++ c.toList ++ ['\n'])
  let out3 := out2 ++
    (if formatType = "markdown" then "\n# Content\n\n".toList else "\nContent:\n\n".toList)
  let cleaned := stripNavFooter doc
  match findFirstTag "main" cleaned with
  | some _ => some out3
  | none =>
    let out4 := out3 ++
      (if formatType = "markdown" then
        "No <main> tag found. Extracting from entire body.\n\n".toList
      else "No <main> tag found. Extracting from entire body.\n".toList)
    match findFirstTag "body" cleaned with
    | none => none
    | some _ => some out4

/-- The table rendering claim C7 describes: the first `<tr>`'s cell texts as
a pipe-delimited header row, a separator row with `max(3, len(header_text))`
dashes per header cell, then every later `<tr>` that has cells as a
pipe-delimited row. -/
def claimTableRendering (tbl : Node) : Option (List Char) :=
  match findFirstTag "tr" tbl with
  | none => none
  | some hr =>
    let headers := (rowCells hr).map Node.getTextStrip
    let headerLine := pipeRow headers
    let sepLine := pipeRow (headers.map (fun h => List.replicate (max 3 h.length) '-'))
    let body := ((findAllTag "tr" tbl).drop 1).filterMap (fun row =>
      let cells := (rowCells row).map Node.getTextStrip
      if cells = [] then none else some (pipeRow cells))
    some (joinNL (headerLine :: sepLine :: body) ++ "\n\n".toList)

/-! ### The deep-nesting stress document (claim C3)

`nestedDoc n` is `n` nested `<div>` elements, each containing one
`<p>Text</p>` and the next `<div>`. -/

def nestedDoc : Nat → Node
  | 0 => .elem "div" [] []
  | n + 1 => .elem "div" [] [.elem "p" [] [.text "Text"], nestedDoc n]

def textTok : List Char := ['T', 'e', 'x', 't']

theorem nestedDoc_name (m : Nat) : (nestedDoc m).name? = some "div" := by
  cases m <;> rfl

theorem nestedDoc_attrs (m : Nat) : (nestedDoc m).attrsOf = [] := by
  cases m <;> rfl

theorem descendants_nestedDoc_succ (n : Nat) :
    descendants (nestedDoc (n + 1)) =
      Node.elem "p" [] [Node.text "Text"] :: Node.text "Text" :: nestedDoc n ::
        descendants (nestedDoc n) := by
  show descendantsList _ = _
  simp [descendantsList, descendants]

theorem mem_descendants_nestedDoc (n : Nat) (d : Node)
    (h : d ∈ descendants (nestedDoc n)) :
    d = .elem "p" [] [.text "Text"] ∨ d = .text "Text" ∨ ∃ m, d = nestedDoc m := by
  induction n with
  | zero => simp [nestedDoc, descendants, descendantsList] at h
  | succ n ih =>
    rw [descendants_nestedDoc_succ] at h
    simp only [List.mem_cons] at h
    rcases h with h | h | h | h
    · exact Or.inl h
    · exact Or.inr (Or.inl h)
    · exact Or.inr (Or.inr ⟨n, h⟩)
    · exact ih h

theorem nestedDoc_filter_nil (n : Nat) (p : Node → Bool)
    (h1 : p (.elem "p" [] [.text "Text"]) = false)
    (h2 : p (.text "Text") = false)
    (h3 : ∀ m, p (nestedDoc m) = false) :
    (descendants (nestedDoc n)).filter p = [] := by
  rw [List.filter_eq_nil]
  intro x hx
  rcases mem_descendants_nestedDoc n x hx with h | h | ⟨m, h⟩ <;> subst h <;>
    simp [h1, h2, h3]

theorem nestedDoc_find_none (n : Nat) (p : Node → Bool)
    (h1 : p (.elem "p" [] [.text "Text"]) = false)
    (h2 : p (.text "Text") = false)
    (h3 : ∀ m, p (nestedDoc m) = false) :
    (descendants (nestedDoc n)).find? p = none := by
  rw [List.find?_eq_none]
  intro x hx
  rcases mem_descendants_nestedDoc n x hx with h | h | ⟨m, h⟩ <;> subst h <;>
    simp [h1, h2, h3]

theorem findMainContent_nestedDoc (n : Nat) :
    findMainContent (nestedDoc n) = nestedDoc n := by
  have e1 : findFirstTag "main" (nestedDoc n) = none := by
    rw [findFirstTag, findAllTag,
      nestedDoc_filter_nil n _ (by decide) (by decide)
        (fun m => by simp only [nestedDoc_name]; decide)]
    rfl
  have e2 : findFirstTag "article" (nestedDoc n) = none := by
    rw [findFirstTag, findAllTag,
      nestedDoc_filter_nil n _ (by decide) (by decide)
        (fun m => by simp only [nestedDoc_name]; decide)]
    rfl
  have e6 : findFirstTag "body" (nestedDoc n) = none := by
    rw [findFirstTag, findAllTag,
      nestedDoc_filter_nil n _ (by decide) (by decide)
        (fun m => by simp only [nestedDoc_name]; decide)]
    rfl
  have e3 : (descendants (nestedDoc n)).find? (fun d =>
      d.name? = some "div" && getAttr d.attrsOf "id" = some "content") = none := by
    apply nestedDoc_find_none n _ (by decide) (by decide)
    intro m
    simp only [nestedDoc_name, nestedDoc_attrs]
    decide
  have e4 : (descendants (nestedDoc n)).find? (fun d =>
      d.name? = some "div" &&
        (splitWs ((getAttrD d.attrsOf "class" "").toList)).contains "content".toList) =
      none := by
    apply nestedDoc_find_none n _ (by decide) (by decide)
    intro m
    simp only [nestedDoc_name, nestedDoc_attrs]
    decide
  have e5 : (descendants (nestedDoc n)).find? (fun d =>
      d.name? = some "div" && getAttr d.attrsOf "role" = some "main") = none := by
    apply nestedDoc_find_none n _ (by decide) (by decide)
    intro m
    simp only [nestedDoc_name, nestedDoc_attrs]
    decide
  rw [findMainContent, e1, e2, e3, e4, e5, e6]

/-- The fragment buffer the markdown traversal produces on `nestedDoc n`:
each `<p>` contributes its paragraph rendering and then its rescheduled text
child again. -/
def mdFrags : Nat → List (List Char)
  | 0 => []
  | n + 1 => "Text\n\n".toList :: "Text".toList :: mdFrags n

theorem mdRender_nestedDoc (n : Nat) : mdRender (nestedDoc n) = mdFrags n := by
  induction n with
  | zero => rfl
  | succ n ih =>
    have h : mdRender (nestedDoc (n + 1)) =
        "Text\n\n".toList :: "Text".toList :: (mdRender (nestedDoc n) ++ []) := rfl
    rw [h, List.append_nil, ih]
    rfl

def mdJoined (n : Nat) : List Char := joinNL (mdFrags n)

theorem mdJoined_two (n : Nat) :
    mdJoined (n + 2) = "Text\n\n\nText".toList ++ '\n' :: mdJoined (n + 1) := rfl

theorem occ_text_block (t : List Char) :
    occCount textTok ("Text\n\n\nText".toList ++ t) = 2 + occCount textTok t := by
  simp [occCount, startsWithL, textTok]
  omega

theorem occ_text_nl (t : List Char) :
    occCount textTok ('\n' :: t) = occCount textTok t := by
  simp [occCount, startsWithL, textTok]

theorem occ_mdJoined (n : Nat) : occCount textTok (mdJoined n) = 2 * n := by
  induction n with
  | zero => rfl
  | succ n ih =>
    cases n with
    | zero => decide
    | succ m =>
      rw [mdJoined_two, occ_text_block, occ_text_nl, ih]
      omega

theorem startsWith_collapseNL :
    ∀ (s p : List Char), '\n' ∉ p →
      startsWithL p (collapseNL s) = startsWithL p s := by
  intro s
  induction s with
  | nil => intro p _; rfl
  | cons c rest ih =>
    intro p hp
    rw [collapseNL]
    split
    · rename_i h
      obtain ⟨hc, hh, _⟩ := h
      subst hc
      rw [ih p hp]
      cases p with
      | nil => rfl
      | cons q qs =>
        have hq : q ≠ '\n' := fun e => hp (e ▸ List.mem_cons_self q qs)
        cases rest with
        | nil => simp at hh
        | cons r rs =>
          simp only [List.head?] at hh
          injection hh with hr
          subst hr
          have hqb : (q == '\n') = false := beq_eq_false_iff_ne.mpr hq
          simp [startsWithL, hqb]
    · cases p with
      | nil => rfl
      | cons q qs =>
        have hqs : '\n' ∉ qs := fun e => hp (List.mem_cons_of_mem q e)
        simp [startsWithL, ih qs hqs]

theorem occ_collapseNL (s : List Char) :
    occCount textTok (collapseNL s) = occCount textTok s := by
  induction s with
  | nil => rfl
  | cons c rest ih =>
    rw [collapseNL]
    split <;> rename_i h
    · obtain ⟨hc, hh, ht⟩ := h
      subst hc
      rw [ih, occ_text_nl]
    · have hsw : startsWithL textTok (c :: collapseNL rest) =
          startsWithL textTok (c :: rest) := by
        have h0 := startsWith_collapseNL (c :: rest) textTok (by decide)
        rw [collapseNL, if_neg h] at h0
        exact h0
      simp only [occCount]
      rw [ih, hsw]

mutual
theorem collapseNL_chars (s : List Char) : ∀ x ∈ collapseNL s, x ∈ s := by
  cases s with
  | nil => intro x hx; exact absurd hx (by simp [collapseNL])
  | cons c rest =>
    intro x hx
    rw [collapseNL] at hx
    split at hx
    · exact List.mem_cons_of_mem c (collapseNL_chars rest x hx)
    · rcases List.mem_cons.mp hx with h | h
      · exact h ▸ List.mem_cons_self c rest
      · exact List.mem_cons_of_mem c (collapseNL_chars rest x h)
end

theorem hash_not_mem_mdJoined (n : Nat) : '#' ∉ mdJoined n := by
  induction n with
  | zero => decide
  | succ n ih =>
    cases n with
    | zero => decide
    | succ m =>
      rw [mdJoined_two]
      intro hmem
      rcases List.mem_append.mp hmem with h | h
      · exact absurd h (by decide)
      · rcases List.mem_cons.mp h with h | h
        · exact absurd h (by decide)
        · exact ih h

/-- Occurrence count of `"Text"` in the full markdown conversion of the
nested stress document: two occurrences per nesting level — the paragraph
rendering plus the rescheduled text child. -/
theorem occ_html_nested (n : Nat) :
    occCount textTok (html_to_markdown (nestedDoc n)).toList = 2 * n := by
  rw [html_to_markdown_eq, findMainContent_nestedDoc, mdRender_nestedDoc]
  show occCount textTok (headingSp (collapseNL (mdJoined n))) = 2 * n
  rw [headingSp_no_hash _ (fun hmem => hash_not_mem_mdJoined n (collapseNL_chars _ '#' hmem))]
  rw [occ_collapseNL, occ_mdJoined]

/-! ### First-occurrence filtering (claim C5) -/

/-- The subsequence of texts that survive first-occurrence-wins
deduplication against an initial `seen` set. -/
def keepFirsts (seen : List (List Char)) : List (List Char) → List (List Char)
  | [] => []
  | t :: ts => if t ∈ seen then keepFirsts seen ts else t :: keepFirsts (seen ++ [t]) ts

/-- The texts of the `li: `-lines among a list of emitted tagged lines. -/
def liLines (ls : List (List Char)) : List (List Char) :=
  (ls.filter (fun l => startsWithL "li: ".toList l)).map (List.drop 4)

/-- The cleaned texts of the `<li>` elements of an element list, in order. -/
def liEls (els : List Node) : List (List Char) :=
  (els.filter (fun e => e.name? = some "li")).map
    (fun e => cleanExtractText (Node.getTextStrip e))

theorem liLines_append (a b : List (List Char)) :
    liLines (a ++ b) = liLines a ++ liLines b := by
  simp [liLines, List.filter_append]

theorem not_li_line_span (t : List Char) :
    startsWithL ['l', 'i', ':', ' '] (tagLine "span" t) = false := rfl

theorem liLines_span (ls : List (List Char)) (t : List Char) :
    liLines (ls ++ [tagLine "span" t]) = liLines ls := by
  rw [liLines_append]
  simp [liLines, not_li_line_span]

theorem liLines_li (ls : List (List Char)) (t : List Char) :
    liLines (ls ++ [tagLine "li" t]) = liLines ls ++ [t] := by
  rw [liLines_append]
  simp [liLines, tagLine, startsWithL]

theorem not_li_line_other (nm : String) (hmem : nm ∈ extractTags) (hne : nm ≠ "li")
    (t : List Char) : startsWithL ['l', 'i', ':', ' '] (tagLine nm t) = false := by
  fin_cases hmem <;> first | rfl | exact absurd rfl hne

theorem liLines_other (nm : String) (hmem : nm ∈ extractTags) (hne : nm ≠ "li")
    (ls : List (List Char)) (t : List Char) :
    liLines (ls ++ [tagLine nm t]) = liLines ls := by
  rw [liLines_append]
  simp [liLines, not_li_line_other nm hmem hne]

theorem taggedStep_seen (st : TaggedState) (el : Node) :
    (taggedStep st el).seen =
      if el.name? = some "li" ∧ cleanExtractText (Node.getTextStrip el) ∉ st.seen
      then st.seen ++ [cleanExtractText (Node.getTextStrip el)] else st.seen := by
  by_cases hspan : el.name? = some "span"
  · simp [taggedStep, hspan]
  · by_cases hli : el.name? = some "li"
    · by_cases hseen : cleanExtractText (Node.getTextStrip el) ∈ st.seen
      · simp [taggedStep, hspan, hli, hseen, apply_ite TaggedState.seen]
      · simp [taggedStep, hspan, hli, hseen, apply_ite TaggedState.seen]
    · by_cases htext : cleanExtractText (Node.getTextStrip el) = []
      · simp [taggedStep, hspan, hli, htext, apply_ite TaggedState.seen]
      · simp [taggedStep, hspan, hli, htext, apply_ite TaggedState.seen]

theorem taggedStep_liLines (st : TaggedState) (el : Node)
    (hn : ∃ nm ∈ extractTags, el.name? = some nm) :
    liLines (taggedStep st el).lines =
      liLines st.lines ++
        (if el.name? = some "li" ∧ cleanExtractText (Node.getTextStrip el) ∉ st.seen
         then [cleanExtractText (Node.getTextStrip el)] else []) := by
  obtain ⟨nm, hnm, hname⟩ := hn
  by_cases hspan : el.name? = some "span"
  · simp [taggedStep, hspan]
  · by_cases hli : el.name? = some "li"
    · by_cases hseen : cleanExtractText (Node.getTextStrip el) ∈ st.seen
      · simp [taggedStep, hspan, hli, hseen, apply_ite TaggedState.seen,
          apply_ite TaggedState.lines, apply_ite liLines, liLines_span]
      · simp [taggedStep, hspan, hli, hseen, apply_ite TaggedState.seen,
          apply_ite TaggedState.lines, apply_ite liLines, liLines_span, liLines_li]
    · have hne : nm ≠ "li" := by
        intro e; subst e; exact hli hname
      have hgd : el.name?.getD "" = nm := by rw [hname]; rfl
      by_cases htext : cleanExtractText (Node.getTextStrip el) = []
      · simp [taggedStep, hspan, hli, htext, apply_ite TaggedState.lines,
          apply_ite liLines, liLines_span]
      · simp [taggedStep, hspan, hli, htext, hgd, apply_ite TaggedState.lines,
          apply_ite liLines, liLines_span, liLines_other nm hnm hne]

theorem tagged_loop_li :
    ∀ (els : List Node) (st : TaggedState),
      (∀ el ∈ els, ∃ nm ∈ extractTags, el.name? = some nm) →
      liLines (els.foldl taggedStep st).lines =
        liLines st.lines ++ keepFirsts st.seen (liEls els) := by
  intro els
  induction els with
  | nil =>
    intro st _
    simp [keepFirsts, liEls, liLines]
  | cons el rest ih =>
    intro st hn
    have hel := hn el (List.mem_cons_self el rest)
    have hrest : ∀ e ∈ rest, ∃ nm ∈ extractTags, e.name? = some nm :=
      fun e he => hn e (List.mem_cons_of_mem el he)
    rw [List.foldl_cons, ih _ hrest, taggedStep_liLines st el hel, taggedStep_seen]
    by_cases hli : el.name? = some "li"
    · have hlieq : liEls (el :: rest) =
          cleanExtractText (Node.getTextStrip el) :: liEls rest := by
        simp [liEls, List.filter_cons, hli]
      rw [hlieq, keepFirsts]
      by_cases hseen : cleanExtractText (Node.getTextStrip el) ∈ st.seen
      · simp [hli, hseen]
      · simp [hli, hseen]
    · have hlieq : liEls (el :: rest) = liEls rest := by
        simp [liEls, List.filter_cons, hli]
      rw [hlieq]
      simp [hli]

/-- First-occurrence filtering for the final tagged line list (the trailing
span-buffer flush adds only a `span:` line). -/
theorem tagged_lines_li (els : List Node) (seen : List (List Char))
    (hn : ∀ el ∈ els, ∃ nm ∈ extractTags, el.name? = some nm) :
    liLines (taggedLinesFinal els seen) = keepFirsts seen (liEls els) := by
  rw [taggedLinesFinal]
  split
  · rw [liLines_span, tagged_loop_li els _ hn]
    rfl
  · rw [tagged_loop_li els _ hn]
    rfl

/-! ### Example documents used by the claim theorems -/

/-- The `<body>` of a document with two `<ul>` lists, each containing
`<li>Duplicate</li>` (the instance named by claim C5). -/
def twoUlBody : Node :=
  .elem "body" []
    [.elem "ul" [] [.elem "li" [] [.text "Duplicate"]],
     .elem "ul" [] [.elem "li" [] [.text "Duplicate"]]]

/-- The parsed soup around `twoUlBody`. -/
def twoUlDoc : Node := .elem "[document]" [] [twoUlBody]

/-- The table of the specification's table-rendering example:
`<table><tr><th>A</th><th>BB</th></tr><tr><td>1</td><td>2</td></tr></table>`. -/
def exTable : Node :=
  .elem "table" []
    [.elem "tr" [] [.elem "th" [] [.text "A"], .elem "th" [] [.text "BB"]],
     .elem "tr" [] [.elem "td" [] [.text "1"], .elem "td" [] [.text "2"]]]

/-- A table whose only `<tr>` has no cells. -/
def emptyTrTable : Node := .elem "table" [] [.elem "tr" [] []]

/-- The header cells of the first `<tr>` of a table, as the table branch
computes them. -/
def tableHeaders (tbl : Node) : List (List Char) :=
  match findFirstTag "tr" tbl with
  | none => []
  | some hr => (rowCells hr).map Node.getTextStrip


/-- The pipe-delimited rows of a table's later `<tr>`s (all but the first),
as the table branch computes them when a first `<tr>` exists. -/
def tableBodyRows (tbl : Node) : List (List Char) :=
  ((findAllTag "tr" tbl).drop 1).filterMap (fun row =>
    let cells := (rowCells row).map Node.getTextStrip
    if cells = [] then none else some (pipeRow cells))

/-- A table whose first `<tr>` is empty but whose second `<tr>` has a
cell. -/
def mixedTable : Node :=
  .elem "table" [] [.elem "tr" [] [], .elem "tr" [] [.elem "td" [] [.text "x"]]]

/-! ### Claim theorems -/

/-- Claim C1 (code bug, evaluation at the failing input): the claim says a
specially handled element such as `<p>` consumes its subtree without
scheduling children, so no text inside it is emitted twice.  The code's
`continue` (and the final `element.name not in [...]` guard) covers only
`pre`, `blockquote`, `ul`, `ol`, `table`; a `<p>` both emits its full text
and schedules its children, so `<div><p>Text</p></div>` converts to
`"Text\n\nText"` — the paragraph text appears twice, contradicting the
claim (and the code's own comment "Skip if element has been processed in a
special way above"). -/
theorem c1_paragraph_double_emission :
    process_element_iteratively [(Node.elem "p" [] [Node.text "Text"], 0)] =
      ["Text\n\n".toList, "Text".toList] ∧
    html_to_markdown (Node.elem "div" [] [Node.elem "p" [] [Node.text "Text"]]) =
      "Text\n\nText" ∧
    schedule (Node.elem "p" [] [Node.text "Text"]) 0 [] = [(Node.text "Text", 1)] := by
  refine ⟨?_, ?_, rfl⟩
  · rw [process_frames_eq]
    decide
  · rw [html_to_markdown_eq, headingSp_no_hash _ (by decide)]
    decide

/-- Claim C2 (confirmed): the work list pops from the front and inserts the
popped element's children at the front in document order, so every scheduled
node is consumed at most once and the consumption order is exactly the
document (pre-)order of the traversed tree (with the five consumed-subtree
element kinds pruned) — children come before previously pending later
siblings, and sibling order is never reversed. -/
theorem c2_worklist_preorder (fs : List (Node × Nat)) (root : Node) :
    consumedSeq fs = (fs.map Prod.fst).flatMap mdPreorder ∧
    consumedSeq [(root, 0)] = mdPreorder root := by
  refine ⟨consumedSeq_eq_preorder fs, ?_⟩
  rw [consumedSeq_eq_preorder]
  simp

/-- Claim C3 (code bug, evaluation at the failing input): conversion of the
5000-level nested-`<div>` document does terminate (the work-list measure
`framesWeight` is well-founded, and `occ_html_nested` evaluates the total
function), but because every `<p>` also schedules its text child (claim C1's
bug) the output contains 10000 occurrences of `"Text"`, not the claimed
5000. -/
theorem c3_nested_divs_terminate_but_double_count :
    occCount textTok (html_to_markdown (nestedDoc 5000)).toList = 10000 ∧
    occCount textTok (html_to_markdown (nestedDoc 5000)).toList ≠ 5000 := by
  have h := occ_html_nested 5000
  constructor
  · rw [h]
  · rw [h]
    omega

/-- Claim C4 counterexample: the markdown traversal does not skip
`<script>` elements — their children are scheduled like any generic
element's, so the script text `alert(1)` appears verbatim in the markdown
output, contradicting "no text contained in such a subtree appears in the
output of any dialect". -/
theorem c4_markdown_emits_script_text :
    html_to_markdown
      (Node.elem "div" [] [Node.elem "script" [] [Node.text "alert(1)"]]) =
      "alert(1)" := by
  rw [html_to_markdown_eq, headingSp_no_hash _ (by decide)]
  decide

/-- Claim C4 as amended: the HTML formatter's `_format_node` and the XML
formatter's `_process_element` both skip `script`/`style`/`noscript`/
`iframe` entirely (`_format_node` returns no fragment and never visits the
children; `_process_element` returns the parent unchanged, its `skip_tags`
set containing all four names).  The markdown traversal has no such skip:
it emits no fragment for such an element itself but schedules all its
children, so their text reaches markdown output; the four tags only
disappear from the markdown pipeline when the scraper's HTML cleaning
removes them beforehand. -/
theorem c4_skip_only_in_html_formatter (attrs : List (String × String))
    (cs : List Node) (ind : Nat) (pre : Bool) (d : Nat) (rest : List (Node × Nat))
    (simplify preserve : Bool) (order : List String) (parent : XElem) :
    format_node (Node.elem "script" attrs cs) ind pre = [] ∧
    format_node (Node.elem "style" attrs cs) ind pre = [] ∧
    format_node (Node.elem "noscript" attrs cs) ind pre = [] ∧
    format_node (Node.elem "iframe" attrs cs) ind pre = [] ∧
    xml_process_element simplify preserve order
      (Node.elem "script" attrs cs) parent = some parent ∧
    xml_process_element simplify preserve order
      (Node.elem "style" attrs cs) parent = some parent ∧
    xml_process_element simplify preserve order
      (Node.elem "noscript" attrs cs) parent = some parent ∧
    xml_process_element simplify preserve order
      (Node.elem "iframe" attrs cs) parent = some parent ∧
    elemFragments (Node.elem "script" attrs cs) = [] ∧
    elemFragments (Node.elem "style" attrs cs) = [] ∧
    elemFragments (Node.elem "noscript" attrs cs) = [] ∧
    elemFragments (Node.elem "iframe" attrs cs) = [] ∧
    schedule (Node.elem "script" attrs cs) d rest = cs.map (fun c => (c, d + 1)) ++ rest ∧
    schedule (Node.elem "style" attrs cs) d rest = cs.map (fun c => (c, d + 1)) ++ rest ∧
    schedule (Node.elem "noscript" attrs cs) d rest = cs.map (fun c => (c, d + 1)) ++ rest ∧
    schedule (Node.elem "iframe" attrs cs) d rest = cs.map (fun c => (c, d + 1)) ++ rest := by
  refine ⟨rfl, rfl, rfl, rfl, rfl, rfl, rfl, rfl,
          rfl, rfl, rfl, rfl, ?_, ?_, ?_, ?_⟩ <;>
    simp [schedule, specialConsumed, scheduleChildren_eq]

/-- Claim C5 (confirmed): list-item deduplication is first-occurrence-wins,
document-wide across distinct lists.  In `process_tagged_format` the emitted
`li:` lines are exactly the first occurrences of the cleaned `<li>` texts
relative to the incoming seen set, for any element list drawn from the
extractor's tag set; and on the named instance — two `<ul>` lists each
containing `<li>Duplicate</li>` — the scraper's `_deduplicate_list_items`
followed by the markdown renderer yields exactly one `- Duplicate` item, and
the tagged processor emits exactly one `li: Duplicate` line. -/
theorem c5_list_item_dedup_first_wins :
    (∀ (els : List Node) (seen : List (List Char)),
      (∀ el ∈ els, ∃ nm ∈ extractTags, el.name? = some nm) →
      liLines (taggedLinesFinal els seen) = keepFirsts seen (liEls els)) ∧
    html_to_markdown (deduplicate_list_items twoUlDoc) = "- Duplicate\n\n" ∧
    occCount "Duplicate".toList
      (html_to_markdown (deduplicate_list_items twoUlDoc)).toList = 1 ∧
    process_tagged_format (extractFrom twoUlBody) [] [] =
      "li: Duplicate\n\n---\n".toList ∧
    occCount "Duplicate".toList (process_tagged_format (extractFrom twoUlBody) [] []) =
      1 := by
  refine ⟨tagged_lines_li, ?_, ?_, by decide, by decide⟩
  · rw [html_to_markdown_eq, headingSp_no_hash _ (by decide)]
    decide
  · rw [html_to_markdown_eq, headingSp_no_hash _ (by decide)]
    decide

/-- Witness for claim C5's quantified part, at the two-`<ul>` document. -/
theorem c5_list_item_dedup_first_wins_witness :
    (∀ el ∈ extractFrom twoUlBody, ∃ nm ∈ extractTags, el.name? = some nm) ∧
    liLines (taggedLinesFinal (extractFrom twoUlBody) []) =
      keepFirsts [] (liEls (extractFrom twoUlBody)) :=
  ⟨by decide, c5_list_item_dedup_first_wins.1 (extractFrom twoUlBody) [] (by decide)⟩

/-- Claim C6 (confirmed), over every dialect.  Markdown:
`_html_to_markdown` neither reads nor writes any instance attribute, so two
sequential runs on the same tree (the second starting from the state the
first returned) yield byte-identical strings, and the output is independent
of the instance state.  XML: `_process_element` reads only the
`simplify_structure`/`preserve_attrs` flags and the constant tag sets and
assigns nothing; the `important_attrs` set is iterated in an enumeration
order that is fixed within a process and travels as the explicit `order`
parameter, the same in both runs of a repeated conversion, and the
serialisation steps after tree building (`ET.tostring`,
`minidom.toprettyxml`) are deterministic stdlib functions of the tree.
Formatted HTML: `_format_node` reads only the two constant tag sets and
assigns nothing.  Tagged: each `parse_with_fallback` call allocates a fresh
`seen_list_items` set, so a second conversion in the same session returns
exactly what a standalone conversion of its document returns. -/
theorem c6_conversion_deterministic :
    (∀ (st : MarkdownFormatterState) (doc : Node),
      (html_to_markdown_run st doc).1 =
        (html_to_markdown_run (html_to_markdown_run st doc).2 doc).1) ∧
    (∀ (st st' : MarkdownFormatterState) (doc : Node),
      (html_to_markdown_run st doc).1 = (html_to_markdown_run st' doc).1) ∧
    (∀ (st : XMLFormatterState) (order : List String) (el : Node) (parent : XElem),
      (xml_process_element_run st order el parent).1 =
        (xml_process_element_run (xml_process_element_run st order el parent).2
          order el parent).1) ∧
    (∀ (st : HTMLFormatterState) (n : Node) (ind : Nat) (pre : Bool),
      (format_node_run st n ind pre).1 =
        (format_node_run (format_node_run st n ind pre).2 n ind pre).1) ∧
    (∀ (doc1 doc2 : Node) (url : String),
      (tagged_session doc1 doc2 url).2 = parse_with_fallback doc2 url "tagged") :=
  ⟨fun _ _ => rfl, fun _ _ _ => rfl, fun _ _ _ _ => rfl,
   fun _ _ _ _ => rfl, fun _ _ _ => rfl⟩

/-- Claim C7 counterexample: `<table><tr></tr></table>` contains a `<tr>`,
but because the first `<tr>` has no `th`/`td` cells nothing at all is
emitted — the first `<tr>` is not rendered as a header row followed by a
separator row, contradicting the claim's "when a `<table>` element contains
at least one `<tr>`". -/
theorem c7_empty_first_tr_renders_nothing :
    (findAllTag "tr" emptyTrTable).length = 1 ∧ renderTable emptyTrTable = [] := by
  exact ⟨by decide, by decide⟩

/-- Claim C7 as amended.  When the first `<tr>` of a table has at least one
`th`/`td` cell, the table branch renders exactly the claimed block — the
header row, a separator row of `max(3, len(header_text))` dashes per header
cell, and every later `<tr>` with cells as a pipe-delimited row (cells are
never rendered outside this handling, the branch scheduling no children).
When the first `<tr>` has no cells, the header and separator rows are
omitted, but the later `<tr>`s with cells are still rendered as
pipe-delimited rows; only a table whose rows all lack cells renders
nothing. -/
theorem c7_table_rendering_amended :
    (∀ tbl : Node, tableHeaders tbl ≠ [] →
      renderTable tbl = [(claimTableRendering tbl).getD []]) ∧
    (∀ (tbl hr : Node), findFirstTag "tr" tbl = some hr →
      tableHeaders tbl = [] →
      renderTable tbl = if tableBodyRows tbl = [] then []
        else [joinNL (tableBodyRows tbl) ++ "\n\n".toList]) := by
  constructor
  · intro tbl h
    unfold tableHeaders at h
    cases hhr : findFirstTag "tr" tbl with
    | none => rw [hhr] at h; exact absurd rfl h
    | some hr =>
      rw [hhr] at h
      unfold renderTable claimTableRendering
      rw [hhr]
      simp only [Option.isSome_some, if_true, ite_true, Option.getD_some, if_neg h]
      rw [if_neg (by simp)]
      simp
  · intro tbl hr hhr htl
    unfold tableHeaders at htl
    rw [hhr] at htl
    simp only at htl
    unfold renderTable tableBodyRows
    rw [hhr]
    simp only [htl, eq_self_iff_true, if_true, ite_true, List.nil_append,
      Option.isSome_some]

/-- Witness for claim C7's amended statement: its with-header half at the
specification's `A`/`BB` example table, its headerless half at a table
whose first `<tr>` is empty but whose second holds `<td>x</td>`. -/
theorem c7_table_rendering_amended_witness :
    (tableHeaders exTable ≠ [] ∧
     renderTable exTable = [(claimTableRendering exTable).getD []] ∧
     renderTable exTable = ["| A | BB |\n| --- | --- |\n| 1 | 2 |\n\n".toList]) ∧
    (findFirstTag "tr" mixedTable = some (Node.elem "tr" [] []) ∧
     tableHeaders mixedTable = [] ∧
     renderTable mixedTable =
       (if tableBodyRows mixedTable = [] then []
        else [joinNL (tableBodyRows mixedTable) ++ "\n\n".toList]) ∧
     renderTable mixedTable = ["| x |\n\n".toList]) :=
  ⟨⟨by decide, c7_table_rendering_amended.1 exTable (by decide), by decide⟩,
   ⟨rfl, by decide,
    c7_table_rendering_amended.2 mixedTable (Node.elem "tr" [] []) rfl (by decide),
    by decide⟩⟩

/-- Claim C8 counterexample: for an anchor without `href`, the code computes
`text = element.get_text(strip=True) or href` but always emits
`f"[{text}]({href})"` with the raw `href` — the text is *not* used as the
target fallback, so `<a>Click</a>` yields `[Click]()` rather than the
claimed `[Click](Click)`; and an anchor with neither href nor text yields
`[]()`, which is still link syntax, not plain text. -/
theorem c8_anchor_counterexample :
    renderA (Node.elem "a" [] [Node.text "Click"]) = "[Click]()".toList ∧
    "[Click]()".toList ≠ "[Click](Click)".toList ∧
    renderA (Node.elem "a" [] []) = "[]()".toList := by
  exact ⟨by decide, by decide, by decide⟩

/-- Claim C8 as amended: an anchor whose `href` attribute is missing is
emitted as `[text]()` — the stripped subtree text becomes the label (empty
when there is no text, giving `[]()`), and the link target is always the raw
`href`, which is empty; the text never substitutes for the target. -/
theorem c8_anchor_no_href_amended (el : Node)
    (h : getAttr el.attrsOf "href" = none) :
    renderA el = '[' :: Node.getTextStrip el ++ "]()".toList := by
  unfold renderA getAttrD
  rw [h]
  by_cases ht : Node.getTextStrip el = []
  · simp [ht]
  · simp [ht]

/-- Witness for claim C8's amended statement at `<a>Click</a>`. -/
theorem c8_anchor_no_href_witness :
    getAttr (Node.elem "a" [] [Node.text "Click"]).attrsOf "href" = none ∧
    renderA (Node.elem "a" [] [Node.text "Click"]) =
      '[' :: Node.getTextStrip (Node.elem "a" [] [Node.text "Click"]) ++ "]()".toList :=
  ⟨by decide, c8_anchor_no_href_amended _ (by decide)⟩

/-- Claim C9 counterexample: attribute sanitisation special-cases `class`
(and `for`): the code returns `class_attr`, while the claimed uniform rule —
replace invalid characters, prefix only when the result does not start with
a letter or underscore — would leave `class` unchanged. -/
theorem c9_sanitize_counterexample :
    sanitize_attr_name "class" = "class_attr" ∧
    claimSanitizeRule "attr_" "class" = "class" ∧
    sanitize_attr_name "class" ≠ claimSanitizeRule "attr_" "class" := by
  exact ⟨rfl, by decide, by decide⟩

/-- Claim C9 as amended: sanitisation is total and deterministic and follows
the claimed rule — each character outside `[a-zA-Z0-9_-]` becomes `_`, and a
result not starting with a letter or underscore is prefixed `tag_` /
`attr_` — except that the empty tag name maps to `tag` and the attribute
names `class` and `for` map to `class_attr` and `for_attr`; in particular
`1weird-tag` sanitises to `tag_1weird-tag`. -/
theorem c9_sanitize_amended :
    (∀ name : String, sanitize_tag_name name =
      if name = "" then "tag" else claimSanitizeRule "tag_" name) ∧
    (∀ name : String, sanitize_attr_name name =
      if name = "class" then "class_attr"
      else if name = "for" then "for_attr"
      else claimSanitizeRule "attr_" name) ∧
    sanitize_tag_name "1weird-tag" = "tag_1weird-tag" := by
  refine ⟨fun name => ?_, fun name => ?_, by decide⟩
  · by_cases h : name = "" <;> simp [sanitize_tag_name, claimSanitizeRule, h]
  · by_cases h1 : name = "class"
    · simp [sanitize_attr_name, h1]
    · by_cases h2 : name = "for" <;>
        simp [sanitize_attr_name, claimSanitizeRule, h1, h2]

/-- Claim C10 (confirmed): `parse_with_fallback` returns exactly the
metadata header it accumulates itself.  The helpers are called on the
immutable local `output` and their return values are discarded, so the
returned string never contains a heading, paragraph, span, or list-item
line they produced — the function is equal to the header-only
`fallbackMetadataHeader`. -/
theorem c10_fallback_returns_header_only (doc : Node) (url formatType : String) :
    parse_with_fallback doc url formatType =
      fallbackMetadataHeader doc url formatType := rfl
